import Mathlib

/-!
# Verification of the service-charge benchmarking core (src/app.py)

Shallow embedding of the benchmarking engine of `app.py`:
postal-code parsing (`parse_district`, `derive_sector_from_postcode`),
the verified-subset predicate, median aggregation (`compute_stats`),
per-year trend building (`compute_trend_by_year`, `add_yoy`),
verdict classification (`verdict`), forecasting (`forecast_rows`),
the orchestrator's year-axis alignment and its error taxonomy.

Conventions of the embedding:
* Python strings are `List Char`; only the ASCII behaviour of `str.upper`,
  `str.strip`, `\s`, `\d`, `[A-Z]`, `\b`, `\w` is modelled, as the data is
  ASCII postal codes and tags.
* Floats are modelled as `ℚ`.
* `pd.to_numeric(col, errors="coerce")` followed by `dropna` is modelled at
  the boundary: a nullable numeric CSV cell is `Option ℚ` (`none` = missing
  or non-coercible), and dropping nulls is `List.filterMap id`.
* The `Vintage Year` column is a nullable integer (per the data model), so
  its coerced value is `Option Int`; likewise the year extracted from the
  `Service Charge Period End` date by `pd.to_datetime(...).dt.year`.
-/

set_option maxRecDepth 4000

namespace SCCheck

/-! ## Python string primitives -/

/-- Python's `\s` / `str.strip` whitespace class (ASCII part). -/
def isWs (c : Char) : Bool :=
  c = ' ' || c = '\t' || c = '\n' || c = '\r' || c = '\x0b' || c = '\x0c'

/-- `str.upper`, ASCII part (Lean's `Char.toUpper` has exactly these semantics). -/
def upperL (l : List Char) : List Char := l.map Char.toUpper

/-- `str.strip()`: drop whitespace from both ends. -/
def stripL (l : List Char) : List Char :=
  ((l.dropWhile isWs).reverse.dropWhile isWs).reverse

/-- `str.replace("  ", " ")`: one left-to-right pass replacing each
non-overlapping occurrence of two spaces by one space. -/
def collapse2 : List Char → List Char
  | [] => []
  | [c] => [c]
  | c :: d :: rest =>
    if c = ' ' ∧ d = ' ' then ' ' :: collapse2 rest
    else c :: collapse2 (d :: rest)

/-- The normalisation `postcode.strip().upper().replace("  ", " ")` applied by
`parse_district` and `derive_sector_from_postcode` (app.py lines 64, 72). -/
def pyNormalize (l : List Char) : List Char := collapse2 (upperL (stripL l))

/-! ## POSTCODE_RE (app.py line 20)

`^\s*([A-Z]{1,2}\d{1,2}[A-Z]?)\s*\d[A-Z]{2}\s*$` with `re.I`, compiled by
hand into a matcher with Python's greedy backtracking order.  As `\s`,
`[A-Za-z]` and `\d` are pairwise disjoint character classes, `\s*`, the
optional letter and the letter run are deterministic maximal munch; the
only genuine backtracking is on `\d{1,2}` (two digits first, then one),
and it is spelled out below.  `$` together with the preceding `\s*` is
equivalent to "only whitespace remains". -/

/-- Matches `\s*\d[A-Z]{2}\s*$` (the inward part after the optional letter). -/
def matchRest (cs : List Char) : Bool :=
  match cs.dropWhile isWs with
  | d :: a :: b :: rest =>
    d.isDigit && a.isAlpha && b.isAlpha && (rest.dropWhile isWs).isEmpty
  | _ => false

/-- Matches `[A-Z]?` then `matchRest`, greedily (letter first, then empty);
returns the character consumed by `[A-Z]?` (part of group 1). -/
def matchOptLetter (cs : List Char) : Option (List Char) :=
  match cs with
  | c :: rest =>
    if c.isAlpha then
      if matchRest rest then some [c]
      else if matchRest (c :: rest) then some [] else none
    else if matchRest (c :: rest) then some [] else none
  | [] => none

/-- Matches `\d{1,2}` then `matchOptLetter`, greedily (two digits first);
returns the digits plus optional letter (part of group 1). -/
def matchDigits (cs : List Char) : Option (List Char) :=
  match cs with
  | d1 :: d2 :: rest =>
    if d1.isDigit then
      if d2.isDigit then
        match matchOptLetter rest with
        | some g => some (d1 :: d2 :: g)
        | none => (matchOptLetter (d2 :: rest)).map (fun g => d1 :: g)
      else (matchOptLetter (d2 :: rest)).map (fun g => d1 :: g)
    else none
  | [d1] => if d1.isDigit then (matchOptLetter []).map (fun g => d1 :: g) else none
  | [] => none

/-- Matches `[A-Z]{1,2}` then `matchDigits`, greedily (two letters first);
returns group 1 (the district). -/
def matchLetters (cs : List Char) : Option (List Char) :=
  match cs with
  | c1 :: c2 :: rest =>
    if c1.isAlpha then
      if c2.isAlpha then
        match matchDigits rest with
        | some g => some (c1 :: c2 :: g)
        | none => (matchDigits (c2 :: rest)).map (fun g => c1 :: g)
      else (matchDigits (c2 :: rest)).map (fun g => c1 :: g)
    else none
  | [c1] => if c1.isAlpha then (matchDigits []).map (fun g => c1 :: g) else none
  | [] => none

/-- `POSTCODE_RE.match(pc)`, returning group 1 (the district) on success. -/
def postcodeMatch (l : List Char) : Option (List Char) :=
  matchLetters (l.dropWhile isWs)

/-- `parse_district` (app.py lines 63-68). -/
def parse_district (l : List Char) : Option (List Char) :=
  postcodeMatch (pyNormalize l)

/-! ## Inward-digit search (app.py lines 71-76)

`re.search(r"\b(\d)[A-Z]{2}\b", pc)` (no `re.I` here, so upper-case letters
only): scan left to right for a digit followed by two upper-case letters
with word boundaries on both sides. -/

/-- Python's `\w` word-character class (ASCII part). -/
def isWord (c : Char) : Bool := c.isAlphanum || c = '_'

/-- `[A-Z]` without `re.I`. -/
def isAZ (c : Char) : Bool := 'A' ≤ c && c ≤ 'Z'

def bdryBefore (p : Option Char) : Bool :=
  match p with
  | none => true
  | some c => !isWord c

def bdryAfter (cs : List Char) : Bool :=
  match cs with
  | [] => true
  | c :: _ => !isWord c

/-- Does `\b(\d)[A-Z]{2}\b` match at the current position (`p` = previous
character, `none` at the start of the string)? -/
def inwardHere (p : Option Char) (cs : List Char) : Option Char :=
  match cs with
  | d :: a :: b :: rest =>
    if d.isDigit && isAZ a && isAZ b && bdryBefore p && bdryAfter rest
    then some d else none
  | _ => none

/-- `re.search`: first position (left to right) where the pattern matches. -/
def findInward (p : Option Char) : List Char → Option Char
  | [] => none
  | c :: cs =>
    match inwardHere p (c :: cs) with
    | some d => some d
    | none => findInward (some c) cs

/-- `derive_sector_from_postcode` (app.py lines 71-76):
`f"{district} {inward_first_digit.group(1)}"`. -/
def derive_sector_from_postcode (l : List Char) (district : List Char) :
    Option (List Char) :=
  match findInward none (pyNormalize l) with
  | none => none
  | some d => some (district ++ [' ', d])

/-! ## Data model -/

/-- One CSV row, with nullable numeric columns already coerced at the
boundary (`none` = missing or non-numeric-coercible). -/
structure RawRow where
  postcode : String
  sector : String
  reliability : Option String
  annual : Option ℚ
  monthly : Option ℚ
  psf : Option ℚ
  psm : Option ℚ
  periodEndYear : Option Int
  vintage : Option Int
deriving DecidableEq

/-- A row after load: the dataset-wide `_year` column has been attached. -/
structure Row extends RawRow where
  year : Option Int
deriving DecidableEq

/-- `df["_rel_clean"] = df[c_reliability].astype(str).str.strip().str.upper()`
(app.py line 120).  `astype(str)` turns a missing value (NaN) into the
string `"nan"`. -/
def relClean (r : Row) : List Char :=
  upperL (stripL ((match r.reliability with
    | none => "nan"
    | some s => s).toList))

def EXCLUDE_RELIABILITY : List (List Char) := ["LOW".toList]

/-- The verified predicate: `~isin(EXCLUDE_RELIABILITY)` (app.py line 130). -/
def verified (r : Row) : Bool := decide (relClean r ∉ EXCLUDE_RELIABILITY)

/-- `apply_verified_filter` (app.py lines 129-130). -/
def apply_verified_filter (g : List Row) : List Row := g.filter verified

/-- Year resolution at load (app.py lines 123-126): `_year` is the coerced
`Vintage Year` column; if that column is NaN for every row, the whole
column is replaced by the year of the billing-period end date. -/
def load (rs : List RawRow) : List Row :=
  if rs.all (fun r => r.vintage.isNone) then
    rs.map (fun r => ⟨r, r.periodEndYear⟩)
  else
    rs.map (fun r => ⟨r, r.vintage⟩)

/-! ## Aggregation -/

def INFLATION_RATE : ℚ := 3 / 100
def FORECAST_YEARS : ℕ := 5
def LOW_BAND : ℚ := 9 / 10
def HIGH_BAND : ℚ := 11 / 10

/-- `pandas.Series.median` on a non-empty list: sort ascending; odd length
takes the middle value, even length averages the two middle values. -/
def medianOf (l : List ℚ) : ℚ :=
  let s := List.insertionSort (· ≤ ·) l
  if s.length % 2 = 1 then s.getD (s.length / 2) 0
  else (s.getD (s.length / 2 - 1) 0 + s.getD (s.length / 2) 0) / 2

/-- `safe_median` (app.py lines 53-55): drop nulls, `None` when nothing
remains, the median otherwise. -/
def safe_median (xs : List (Option ℚ)) : Option ℚ :=
  let v := xs.filterMap id
  if v.isEmpty then none else some (medianOf v)

/-- `safe_count` (app.py lines 58-60): number of coercible values. -/
def safe_count (xs : List (Option ℚ)) : ℕ := (xs.filterMap id).length

structure Stats where
  n : ℕ
  median_year : Option ℚ
  median_month : Option ℚ
  median_psf : Option ℚ
  median_psm : Option ℚ
deriving DecidableEq

/-- `compute_stats` (app.py lines 133-141). -/
def compute_stats (g : List Row) : Stats :=
  let g2 := apply_verified_filter g
  ⟨safe_count (g2.map (fun r => r.annual)),
   safe_median (g2.map (fun r => r.annual)),
   safe_median (g2.map (fun r => r.monthly)),
   safe_median (g2.map (fun r => r.psf)),
   safe_median (g2.map (fun r => r.psm))⟩

/-! ## Trend builder -/

structure TrendPoint where
  year : Int
  median_year : ℚ
  n : ℕ
deriving DecidableEq

/-- Body of `compute_trend_by_year` after the verified/`dropna` filtering
(app.py lines 149-158): `sorted(unique years)`, one point per year whose
median is defined.  `sorted(g2["_year"].unique())` is modelled as
`insertionSort` of `dedup` (same members, same sorted result). -/
def trendFromG2 (g2 : List Row) : List TrendPoint :=
  if g2.isEmpty then []
  else
    (List.insertionSort (· ≤ ·) (g2.filterMap (fun r => r.year)).dedup).filterMap
      (fun yr =>
        let gy := g2.filter (fun r => r.year = some yr)
        (safe_median (gy.map (fun r => r.annual))).map
          (fun med => ⟨yr, med, safe_count (gy.map (fun r => r.annual))⟩))

/-- `compute_trend_by_year` (app.py lines 144-158):
`apply_verified_filter(g).dropna(subset=["_year"])` then group by year. -/
def compute_trend_by_year (g : List Row) : List TrendPoint :=
  trendFromG2 ((apply_verified_filter g).filter (fun r => r.year.isSome))

structure TrendPointY where
  year : Int
  median_year : ℚ
  n : ℕ
  yoy : Option ℚ
deriving DecidableEq

/-- The loop of `add_yoy` (app.py lines 161-170), carrying `prev`. -/
def add_yoy_go (prev : Option ℚ) : List TrendPoint → List TrendPointY
  | [] => []
  | row :: rest =>
    ⟨row.year, row.median_year, row.n,
      match prev with
      | some p => if p ≠ 0 then some ((row.median_year - p) / p * 100) else none
      | none => none⟩ :: add_yoy_go (some row.median_year) rest

/-- `add_yoy` (app.py lines 161-170). -/
def add_yoy (trend : List TrendPoint) : List TrendPointY := add_yoy_go none trend

/-! ## Verdict and forecast -/

/-- `verdict` (app.py lines 79-87). -/
def verdict (sector_med london_med : Option ℚ) : String :=
  match sector_med, london_med with
  | some s, some l =>
    if s ≤ l * LOW_BAND then "Low"
    else if s ≤ l * HIGH_BAND then "Fair"
    else "High"
  | _, _ => "N/A"

/-- `forecast_rows` (app.py lines 96-103): `(i, base * 1.03 ** i)` for
`i in range(1, FORECAST_YEARS + 1)`; `[]` when the base is `None`. -/
def forecast_rows (base_yearly : Option ℚ) : List (ℕ × ℚ) :=
  match base_yearly with
  | none => []
  | some b =>
    (List.range FORECAST_YEARS).map
      (fun k => (k + 1, b * (1 + INFLATION_RATE) ^ (k + 1)))

/-! ## Orchestrator: year-axis alignment (app.py lines 560-566) -/

/-- `{int(r["year"]): float(r["median_year"]) for r in trend}`. -/
def trendDict (l : List TrendPoint) : List (Int × ℚ) :=
  l.map (fun r => (r.year, r.median_year))

/-- Dict lookup; in a Python dict comprehension a later pair overwrites an
earlier one, hence lookup on the reversed association list. -/
def dictGet (d : List (Int × ℚ)) (y : Int) : Option ℚ := d.reverse.lookup y

/-- Lines 560-566: shared sorted year axis (`sorted(set | set)`, modelled as
sort of dedup: same members, hence the same strictly sorted list) and the
two parallel value sequences with `None` gaps. -/
def alignTrends (sectorTrend londonTrend : List TrendPoint) :
    List Int × List (Option ℚ) × List (Option ℚ) :=
  let london := trendDict londonTrend
  let sector := trendDict sectorTrend
  let all_years :=
    List.insertionSort (· ≤ ·) ((london.map Prod.fst ++ sector.map Prod.fst).dedup)
  (all_years,
   all_years.map (fun y => dictGet sector y),
   all_years.map (fun y => dictGet london y))

/-! ## Orchestrator: query error taxonomy (app.py lines 514-526) -/

inductive SearchOutcome
  | emptyInput
  | invalidFormat
  | sectorDerivationFailed
  | ok : List Char → List Char → SearchOutcome
deriving DecidableEq

/-- The `search` route up to sector derivation (app.py lines 516-526):
strip the query, reject empty, then the two-step derivation with its two
distinct failure modes. -/
def searchOutcome (input : List Char) : SearchOutcome :=
  let pc := stripL input
  if pc.isEmpty then .emptyInput
  else
    match parse_district pc with
    | none => .invalidFormat
    | some district =>
      match derive_sector_from_postcode pc district with
      | none => .sectorDerivationFailed
      | some sector => .ok district sector

/-! ## General helper lemmas -/

theorem safe_median_map_none (f : Row → Option ℚ) (g2 : List Row)
    (h : ∀ r ∈ g2, f r = none) : safe_median (g2.map f) = none := by
  have hnil : (g2.map f).filterMap id = [] := by
    rw [List.filterMap_map, List.filterMap_eq_nil_iff]
    intro a ha
    exact h a ha
  simp [safe_median, hnil]

theorem safe_count_map_eq_zero_iff (f : Row → Option ℚ) (g2 : List Row) :
    safe_count (g2.map f) = 0 ↔ ∀ r ∈ g2, f r = none := by
  rw [safe_count, List.length_eq_zero, List.filterMap_map, List.filterMap_eq_nil_iff]
  constructor
  · intro h r hr
    exact h r hr
  · intro h r hr
    exact h r hr

theorem add_yoy_go_length (prev : Option ℚ) (l : List TrendPoint) :
    (add_yoy_go prev l).length = l.length := by
  induction l generalizing prev with
  | nil => rfl
  | cons row rest ih => simp [add_yoy_go, ih]

theorem add_yoy_go_base (prev : Option ℚ) (l : List TrendPoint) (i : ℕ) :
    ((add_yoy_go prev l)[i]?).map (fun p => (p.year, p.median_year, p.n))
      = (l[i]?).map (fun p => (p.year, p.median_year, p.n)) := by
  induction l generalizing prev i with
  | nil => rfl
  | cons row rest ih =>
    cases i with
    | zero => simp [add_yoy_go]
    | succ n => simpa [add_yoy_go] using ih (some row.median_year) n

theorem add_yoy_go_succ (l : List TrendPoint) (prev : Option ℚ) (i : ℕ)
    (p : TrendPoint) (q : TrendPointY) (hp : l[i]? = some p)
    (hq : (add_yoy_go prev l)[i + 1]? = some q) :
    q.yoy = if p.median_year = 0 then none
      else some ((q.median_year - p.median_year) / p.median_year * 100) := by
  induction l generalizing prev i with
  | nil => simp at hp
  | cons row rest ih =>
    cases i with
    | zero =>
      rw [List.getElem?_cons_zero, Option.some_inj] at hp
      subst hp
      cases rest with
      | nil => simp [add_yoy_go] at hq
      | cons r2 rest2 =>
        simp only [add_yoy_go, List.getElem?_cons_succ, List.getElem?_cons_zero,
          Option.some_inj] at hq
        subst hq
        by_cases h0 : row.median_year = 0 <;> simp [h0]
    | succ n =>
      rw [List.getElem?_cons_succ] at hp
      simp only [add_yoy_go, List.getElem?_cons_succ] at hq
      exact ih (some row.median_year) n hp hq

theorem lookup_eq_none_iff (d : List (Int × ℚ)) (y : Int) :
    List.lookup y d = none ↔ y ∉ d.map Prod.fst := by
  induction d with
  | nil => simp [List.lookup]
  | cons kv t ih =>
    obtain ⟨k, v⟩ := kv
    cases hbeq : y == k with
    | true =>
      have hy : y = k := by simpa using hbeq
      subst hy
      simp [List.lookup, hbeq]
    | false =>
      have hne : y ≠ k := by simpa using hbeq
      simp [List.lookup, hbeq, ih, hne]

theorem lookup_some_mem (d : List (Int × ℚ)) (y : Int) (v : ℚ)
    (h : List.lookup y d = some v) : (y, v) ∈ d := by
  induction d with
  | nil => simp [List.lookup] at h
  | cons kv t ih =>
    obtain ⟨k, w⟩ := kv
    cases hbeq : y == k with
    | true =>
      have hy : y = k := by simpa using hbeq
      subst hy
      simp only [List.lookup, hbeq, Option.some_inj] at h
      subst h
      exact List.mem_cons_self _ _
    | false =>
      simp only [List.lookup, hbeq] at h
      exact List.mem_cons_of_mem _ (ih h)

theorem dictGet_eq_none_iff (d : List (Int × ℚ)) (y : Int) :
    dictGet d y = none ↔ y ∉ d.map Prod.fst := by
  rw [dictGet, lookup_eq_none_iff, List.map_reverse, List.mem_reverse]

theorem dictGet_some_mem (d : List (Int × ℚ)) (y : Int) (v : ℚ)
    (h : dictGet d y = some v) : (y, v) ∈ d :=
  List.mem_reverse.mp (lookup_some_mem _ _ _ h)

theorem trendDict_keys (l : List TrendPoint) :
    (trendDict l).map Prod.fst = l.map (fun p => p.year) := by
  simp [trendDict, List.map_map, Function.comp]

theorem trend_map_year (ys : List Int) (m : Int → Option ℚ) (nn : Int → ℕ) :
    ((ys.filterMap (fun yr => (m yr).map
        (fun med => TrendPoint.mk yr med (nn yr)))).map (fun p => p.year))
      = ys.filter (fun yr => (m yr).isSome) := by
  induction ys with
  | nil => rfl
  | cons y t ih => cases hm : m y <;> simp [List.filterMap_cons, hm, ih]

theorem filter_isSome_filter_year (g : List Row) (y : Int) :
    ((apply_verified_filter g).filter (fun r => r.year.isSome)).filter
        (fun r => r.year = some y)
      = (apply_verified_filter g).filter (fun r => r.year = some y) := by
  rw [List.filter_filter]
  apply List.filter_congr
  intro r _
  cases hy : r.year <;> simp [hy]

theorem mem_year_filter_isSome (l : List Row) (y : Int) :
    (∃ r ∈ l.filter (fun r => r.year.isSome), r.year = some y)
      ↔ (∃ r ∈ l, r.year = some y) := by
  constructor
  · rintro ⟨r, hr, hy⟩
    exact ⟨r, (List.mem_filter.mp hr).1, hy⟩
  · rintro ⟨r, hr, hy⟩
    exact ⟨r, List.mem_filter.mpr ⟨hr, by simp [hy]⟩, hy⟩

theorem toNat_ofNat_of_valid {n : ℕ} (h : n < 55296) : (Char.ofNat n).toNat = n := by
  rw [Char.ofNat, dif_pos (Or.inl h)]
  rfl

theorem toUpper_of_range (c : Char) (h : 97 ≤ c.toNat ∧ c.toNat ≤ 122) :
    Char.toUpper c = Char.ofNat (c.toNat - 32) := by
  rw [Char.toUpper, if_pos h]

theorem toUpper_of_not_range (c : Char) (h : ¬(97 ≤ c.toNat ∧ c.toNat ≤ 122)) :
    Char.toUpper c = c := by
  rw [Char.toUpper, if_neg h]

theorem toUpper_idem (c : Char) :
    Char.toUpper (Char.toUpper c) = Char.toUpper c := by
  by_cases h : 97 ≤ c.toNat ∧ c.toNat ≤ 122
  · rw [toUpper_of_range c h]
    apply toUpper_of_not_range
    rw [toNat_ofNat_of_valid (by omega)]
    omega
  · rw [toUpper_of_not_range c h]
    exact toUpper_of_not_range c h

theorem isWs_false_of_toNat (c : Char) (h : 33 ≤ c.toNat) : isWs c = false := by
  have h1 : c ≠ ' ' := fun he => by rw [he] at h; exact absurd h (by decide)
  have h2 : c ≠ '\t' := fun he => by rw [he] at h; exact absurd h (by decide)
  have h3 : c ≠ '\n' := fun he => by rw [he] at h; exact absurd h (by decide)
  have h4 : c ≠ '\r' := fun he => by rw [he] at h; exact absurd h (by decide)
  have h5 : c ≠ '\x0b' := fun he => by rw [he] at h; exact absurd h (by decide)
  have h6 : c ≠ '\x0c' := fun he => by rw [he] at h; exact absurd h (by decide)
  simp [isWs, h1, h2, h3, h4, h5, h6]

theorem isWs_toUpper (c : Char) : isWs (Char.toUpper c) = isWs c := by
  by_cases h : 97 ≤ c.toNat ∧ c.toNat ≤ 122
  · rw [toUpper_of_range c h,
      isWs_false_of_toNat _ (by rw [toNat_ofNat_of_valid (by omega)]; omega),
      isWs_false_of_toNat c (by omega)]
  · rw [toUpper_of_not_range c h]

theorem head?_dropWhile_not_isWs (l : List Char) :
    ∀ c, (l.dropWhile isWs).head? = some c → isWs c = false := by
  induction l with
  | nil => intro c h; simp at h
  | cons a t ih =>
    intro c h
    by_cases ha : isWs a
    · rw [List.dropWhile_cons, if_pos ha] at h
      exact ih c h
    · rw [List.dropWhile_cons, if_neg ha] at h
      simp only [List.head?_cons, Option.some_inj] at h
      subst h
      simpa using ha

theorem dropWhile_eq_self_isWs (l : List Char)
    (h : ∀ c, l.head? = some c → isWs c = false) : l.dropWhile isWs = l := by
  cases l with
  | nil => rfl
  | cons a t => rw [List.dropWhile_cons, if_neg (by simp [h a rfl])]

theorem stripL_head (l : List Char) :
    ∀ c, (stripL l).head? = some c → isWs c = false := by
  intro c hc
  obtain ⟨t, ht⟩ := List.dropWhile_suffix (l := (l.dropWhile isWs).reverse) isWs
  have hx : l.dropWhile isWs
      = ((l.dropWhile isWs).reverse.dropWhile isWs).reverse ++ t.reverse := by
    have h2 := congrArg List.reverse ht
    rw [List.reverse_append, List.reverse_reverse] at h2
    exact h2.symm
  rw [stripL] at hc
  cases hdr : ((l.dropWhile isWs).reverse.dropWhile isWs).reverse with
  | nil => rw [hdr] at hc; simp at hc
  | cons z zs =>
    rw [hdr] at hc
    simp only [List.head?_cons, Option.some_inj] at hc
    have hz : (l.dropWhile isWs).head? = some z := by
      rw [hx, hdr, List.cons_append, List.head?_cons]
    rw [← hc]
    exact head?_dropWhile_not_isWs l z hz

theorem stripL_getLast (l : List Char) :
    ∀ c, (stripL l).getLast? = some c → isWs c = false := by
  intro c hc
  rw [stripL, List.getLast?_reverse] at hc
  exact head?_dropWhile_not_isWs _ c hc

theorem stripL_eq_self (l : List Char)
    (h1 : ∀ c, l.head? = some c → isWs c = false)
    (h2 : ∀ c, l.getLast? = some c → isWs c = false) : stripL l = l := by
  rw [stripL, dropWhile_eq_self_isWs l h1,
    dropWhile_eq_self_isWs l.reverse
      (fun c hc => h2 c (by rwa [List.head?_reverse] at hc)),
    List.reverse_reverse]

theorem stripL_idem (l : List Char) : stripL (stripL l) = stripL l :=
  stripL_eq_self _ (stripL_head l) (stripL_getLast l)

theorem pyNormalize_stripL (l : List Char) :
    pyNormalize (stripL l) = pyNormalize l := by
  rw [pyNormalize, pyNormalize, stripL_idem]

theorem parse_district_stripL (l : List Char) :
    parse_district (stripL l) = parse_district l := by
  rw [parse_district, parse_district, pyNormalize_stripL]

theorem derive_sector_stripL (l d : List Char) :
    derive_sector_from_postcode (stripL l) d = derive_sector_from_postcode l d := by
  rw [derive_sector_from_postcode, derive_sector_from_postcode, pyNormalize_stripL]

theorem collapse2_eq_nil_iff (l : List Char) : collapse2 l = [] ↔ l = [] := by
  rcases l with _ | ⟨c, _ | ⟨d, rest⟩⟩
  · simp [collapse2]
  · simp [collapse2]
  · by_cases h : c = ' ' ∧ d = ' ' <;> simp [collapse2, h]

theorem collapse2_isEmpty (l : List Char) :
    (collapse2 l).isEmpty = l.isEmpty := by
  by_cases h : l = []
  · subst h; rfl
  · have h2 : collapse2 l ≠ [] := fun hc => h ((collapse2_eq_nil_iff l).mp hc)
    rw [show (collapse2 l).isEmpty = false by simpa [List.isEmpty_iff] using h2,
      show l.isEmpty = false by simpa [List.isEmpty_iff] using h]

theorem head?_collapse2 (l : List Char) : (collapse2 l).head? = l.head? := by
  rcases l with _ | ⟨c, _ | ⟨d, rest⟩⟩
  · rfl
  · rfl
  · by_cases h : c = ' ' ∧ d = ' '
    · obtain ⟨hc, hd⟩ := h
      subst hc; subst hd
      simp [collapse2]
    · simp [collapse2, h]

theorem getLast?_cons_ne (a : Char) (l : List Char) (h : l ≠ []) :
    (a :: l).getLast? = l.getLast? := by
  cases l with
  | nil => exact absurd rfl h
  | cons b t => exact List.getLast?_cons_cons

theorem mem_collapse2 (a : Char) (l : List Char) (h : a ∈ collapse2 l) :
    a ∈ l := by
  have H : ∀ (n : ℕ) (l : List Char), l.length ≤ n → a ∈ collapse2 l → a ∈ l := by
    intro n
    induction n with
    | zero =>
      intro l hl ha
      have hnil : l = [] := List.length_eq_zero.mp (Nat.le_zero.mp hl)
      subst hnil
      exact ha
    | succ n ih =>
      intro l hl ha
      rcases l with _ | ⟨c, _ | ⟨d, rest⟩⟩
      · exact ha
      · exact ha
      · simp only [List.length_cons] at hl
        by_cases h : c = ' ' ∧ d = ' '
        · obtain ⟨hc, hd⟩ := h
          subst hc; subst hd
          rw [show collapse2 (' ' :: ' ' :: rest) = ' ' :: collapse2 rest by
            simp [collapse2]] at ha
          rcases List.mem_cons.mp ha with ha | ha
          · subst ha; exact List.mem_cons_self _ _
          · exact List.mem_cons_of_mem _ (List.mem_cons_of_mem _
              (ih rest (by omega) ha))
        · rw [show collapse2 (c :: d :: rest) = c :: collapse2 (d :: rest) by
            simp [collapse2, h]] at ha
          rcases List.mem_cons.mp ha with ha | ha
          · subst ha; exact List.mem_cons_self _ _
          · exact List.mem_cons_of_mem _ (ih (d :: rest) (by simp; omega) ha)
  exact H l.length l le_rfl h

theorem getLast?_collapse2 (l : List Char) :
    (collapse2 l).getLast? = l.getLast? := by
  have H : ∀ (n : ℕ) (l : List Char), l.length ≤ n →
      (collapse2 l).getLast? = l.getLast? := by
    intro n
    induction n with
    | zero =>
      intro l hl
      have hnil : l = [] := List.length_eq_zero.mp (Nat.le_zero.mp hl)
      subst hnil
      rfl
    | succ n ih =>
      intro l hl
      rcases l with _ | ⟨c, _ | ⟨d, rest⟩⟩
      · rfl
      · rfl
      · simp only [List.length_cons] at hl
        by_cases h : c = ' ' ∧ d = ' '
        · obtain ⟨hc, hd⟩ := h
          subst hc; subst hd
          rw [show collapse2 (' ' :: ' ' :: rest) = ' ' :: collapse2 rest by
            simp [collapse2]]
          cases rest with
          | nil => rfl
          | cons e t =>
            have hne : collapse2 (e :: t) ≠ [] := fun hc =>
              List.cons_ne_nil e t ((collapse2_eq_nil_iff _).mp hc)
            have g1 : (' ' :: collapse2 (e :: t)).getLast?
                = (collapse2 (e :: t)).getLast? := getLast?_cons_ne _ _ hne
            have g2 : (' ' :: ' ' :: e :: t).getLast? = (e :: t).getLast? := by
              rw [List.getLast?_cons_cons, List.getLast?_cons_cons]
            rw [g1, ih (e :: t) (by simp only [List.length_cons] at hl ⊢; omega), g2]
        · rw [show collapse2 (c :: d :: rest) = c :: collapse2 (d :: rest) by
            simp [collapse2, h]]
          have hne : collapse2 (d :: rest) ≠ [] := fun hc =>
            List.cons_ne_nil d rest ((collapse2_eq_nil_iff _).mp hc)
          have g1 : (c :: collapse2 (d :: rest)).getLast?
              = (collapse2 (d :: rest)).getLast? := getLast?_cons_ne _ _ hne
          have g2 : (c :: d :: rest).getLast? = (d :: rest).getLast? :=
            List.getLast?_cons_cons
          rw [g1, ih (d :: rest) (by simp only [List.length_cons] at hl ⊢; omega), g2]
  exact H l.length l le_rfl

theorem dropWhile_collapse2 (l : List Char) :
    (collapse2 l).dropWhile isWs = collapse2 (l.dropWhile isWs) := by
  have H : ∀ (n : ℕ) (l : List Char), l.length ≤ n →
      (collapse2 l).dropWhile isWs = collapse2 (l.dropWhile isWs) := by
    intro n
    induction n with
    | zero =>
      intro l hl
      rw [List.length_eq_zero.mp (Nat.le_zero.mp hl)]
      rfl
    | succ n ih =>
      intro l hl
      rcases l with _ | ⟨c, _ | ⟨d, rest⟩⟩
      · rfl
      · by_cases hc : isWs c <;>
          simp [collapse2, List.dropWhile_cons, hc]
      · simp only [List.length_cons] at hl
        by_cases h : c = ' ' ∧ d = ' '
        · obtain ⟨hc, hd⟩ := h
          subst hc; subst hd
          rw [show collapse2 (' ' :: ' ' :: rest) = ' ' :: collapse2 rest by
            simp [collapse2]]
          rw [List.dropWhile_cons, if_pos (by decide), List.dropWhile_cons,
            if_pos (by decide), List.dropWhile_cons, if_pos (by decide)]
          exact ih rest (by omega)
        · rw [show collapse2 (c :: d :: rest) = c :: collapse2 (d :: rest) by
            simp [collapse2, h]]
          by_cases hc : isWs c
          · rw [List.dropWhile_cons, if_pos hc, List.dropWhile_cons, if_pos hc]
            exact ih (d :: rest) (by simp; omega)
          · rw [List.dropWhile_cons, if_neg hc, List.dropWhile_cons, if_neg hc]
            simp [collapse2, h]
  exact H l.length l le_rfl

theorem matchRest_congr (x y : List Char)
    (h : x.dropWhile isWs = y.dropWhile isWs) : matchRest x = matchRest y := by
  unfold matchRest
  rw [h]

theorem matchRest_collapse2_core (z : List Char)
    (hz : ∀ c, z.head? = some c → isWs c = false) :
    matchRest (collapse2 z) = matchRest z := by
  have hzd : z.dropWhile isWs = z := dropWhile_eq_self_isWs z hz
  have hcd : (collapse2 z).dropWhile isWs = collapse2 z := by
    rw [dropWhile_collapse2, hzd]
  unfold matchRest
  rw [hzd, hcd]
  rcases z with _ | ⟨c, _ | ⟨d, _ | ⟨e, rest⟩⟩⟩
  · rfl
  · rfl
  · have hc : c ≠ ' ' := by
      intro hce
      have := hz c rfl
      rw [hce] at this
      exact absurd this (by decide)
    rw [show collapse2 [c, d] = [c, d] by simp [collapse2, hc]]
  · have hc : c ≠ ' ' := by
      intro hce
      have := hz c rfl
      rw [hce] at this
      exact absurd this (by decide)
    by_cases hde : d = ' ' ∧ e = ' '
    · obtain ⟨hd, he⟩ := hde
      subst hd; subst he
      rw [show collapse2 (c :: ' ' :: ' ' :: rest)
          = c :: ' ' :: collapse2 rest by simp [collapse2, hc]]
      cases hcr : collapse2 rest with
      | nil => simp
      | cons z2 zs2 => simp
    · rw [show collapse2 (c :: d :: e :: rest)
          = c :: d :: collapse2 (e :: rest) by simp [collapse2, hc, hde]]
      rcases rest with _ | ⟨f, rest2⟩
      · rw [show collapse2 [e] = [e] from rfl]
      · by_cases hef : e = ' ' ∧ f = ' '
        · obtain ⟨he, hf⟩ := hef
          subst he; subst hf
          rw [show collapse2 (' ' :: ' ' :: rest2) = ' ' :: collapse2 rest2 by
            simp [collapse2]]
          simp
        · rw [show collapse2 (e :: f :: rest2) = e :: collapse2 (f :: rest2) by
            simp [collapse2, hef]]
          dsimp only
          rw [dropWhile_collapse2, collapse2_isEmpty]

theorem matchRest_collapse2 (u : List Char) :
    matchRest (collapse2 u) = matchRest u := by
  have h1 : matchRest (collapse2 u) = matchRest (collapse2 (u.dropWhile isWs)) := by
    apply matchRest_congr
    rw [dropWhile_collapse2]
    rw [dropWhile_collapse2, dropWhile_eq_self_isWs _ (head?_dropWhile_not_isWs u)]
  have h2 : matchRest (collapse2 (u.dropWhile isWs)) = matchRest (u.dropWhile isWs) :=
    matchRest_collapse2_core _ (head?_dropWhile_not_isWs u)
  have h3 : matchRest (u.dropWhile isWs) = matchRest u := by
    apply matchRest_congr
    rw [dropWhile_eq_self_isWs _ (head?_dropWhile_not_isWs u)]
  rw [h1, h2, h3]

theorem matchOptLetter_collapse2 (t : List Char) :
    matchOptLetter (collapse2 t) = matchOptLetter t := by
  rcases t with _ | ⟨c, _ | ⟨d, rest⟩⟩
  · rfl
  · rfl
  · by_cases hcd : c = ' ' ∧ d = ' '
    · obtain ⟨hc, hd⟩ := hcd
      subst hc; subst hd
      have hc2 : collapse2 (' ' :: ' ' :: rest) = ' ' :: collapse2 rest := by
        simp [collapse2]
      have hmr : matchRest (' ' :: collapse2 rest)
          = matchRest (' ' :: ' ' :: rest) := by
        rw [← hc2]
        exact matchRest_collapse2 _
      rw [hc2]
      simp [matchOptLetter, show (' ' : Char).isAlpha = false from by decide, hmr]
    · have hc2 : collapse2 (c :: d :: rest) = c :: collapse2 (d :: rest) := by
        simp [collapse2, hcd]
      have hm1 : matchRest (collapse2 (d :: rest)) = matchRest (d :: rest) :=
        matchRest_collapse2 _
      have hm2 : matchRest (c :: collapse2 (d :: rest))
          = matchRest (c :: d :: rest) := by
        rw [← hc2]
        exact matchRest_collapse2 _
      rw [hc2]
      simp only [matchOptLetter]
      rw [hm1, hm2]

theorem matchDigits_collapse2 (t : List Char) :
    matchDigits (collapse2 t) = matchDigits t := by
  rcases t with _ | ⟨c, _ | ⟨d, rest⟩⟩
  · rfl
  · rfl
  · by_cases hcd : c = ' ' ∧ d = ' '
    · obtain ⟨hc, hd⟩ := hcd
      subst hc; subst hd
      rw [show collapse2 (' ' :: ' ' :: rest) = ' ' :: collapse2 rest by
        simp [collapse2]]
      cases hcr : collapse2 rest with
      | nil => simp [matchDigits, show (' ' : Char).isDigit = false from by decide]
      | cons z zs =>
        simp [matchDigits, show (' ' : Char).isDigit = false from by decide]
    · have hc2 : collapse2 (c :: d :: rest) = c :: collapse2 (d :: rest) := by
        simp [collapse2, hcd]
      rw [hc2]
      rcases rest with _ | ⟨e, rest2⟩
      · rfl
      · by_cases hde : d = ' ' ∧ e = ' '
        · obtain ⟨hd, he⟩ := hde
          subst hd; subst he
          have hc3 : collapse2 (' ' :: ' ' :: rest2) = ' ' :: collapse2 rest2 := by
            simp [collapse2]
          have hopt : matchOptLetter (' ' :: collapse2 rest2)
              = matchOptLetter (' ' :: ' ' :: rest2) := by
            rw [← hc3]
            exact matchOptLetter_collapse2 _
          rw [hc3]
          simp [matchDigits, show (' ' : Char).isDigit = false from by decide, hopt]
        · have hc3 : collapse2 (d :: e :: rest2) = d :: collapse2 (e :: rest2) := by
            simp [collapse2, hde]
          have h1 : matchOptLetter (collapse2 (e :: rest2))
              = matchOptLetter (e :: rest2) := matchOptLetter_collapse2 _
          have h2 : matchOptLetter (d :: collapse2 (e :: rest2))
              = matchOptLetter (d :: e :: rest2) := by
            rw [← hc3]
            exact matchOptLetter_collapse2 _
          rw [hc3]
          simp only [matchDigits]
          rw [h1, h2]

theorem matchLetters_collapse2 (t : List Char) :
    matchLetters (collapse2 t) = matchLetters t := by
  rcases t with _ | ⟨c, _ | ⟨d, rest⟩⟩
  · rfl
  · rfl
  · by_cases hcd : c = ' ' ∧ d = ' '
    · obtain ⟨hc, hd⟩ := hcd
      subst hc; subst hd
      rw [show collapse2 (' ' :: ' ' :: rest) = ' ' :: collapse2 rest by
        simp [collapse2]]
      cases hcr : collapse2 rest with
      | nil => simp [matchLetters, show (' ' : Char).isAlpha = false from by decide]
      | cons z zs =>
        simp [matchLetters, show (' ' : Char).isAlpha = false from by decide]
    · have hc2 : collapse2 (c :: d :: rest) = c :: collapse2 (d :: rest) := by
        simp [collapse2, hcd]
      rw [hc2]
      rcases rest with _ | ⟨e, rest2⟩
      · rfl
      · by_cases hde : d = ' ' ∧ e = ' '
        · obtain ⟨hd, he⟩ := hde
          subst hd; subst he
          have hc3 : collapse2 (' ' :: ' ' :: rest2) = ' ' :: collapse2 rest2 := by
            simp [collapse2]
          have hopt : matchDigits (' ' :: collapse2 rest2)
              = matchDigits (' ' :: ' ' :: rest2) := by
            rw [← hc3]
            exact matchDigits_collapse2 _
          rw [hc3]
          simp [matchLetters, show (' ' : Char).isAlpha = false from by decide, hopt]
        · have hc3 : collapse2 (d :: e :: rest2) = d :: collapse2 (e :: rest2) := by
            simp [collapse2, hde]
          have h1 : matchDigits (collapse2 (e :: rest2))
              = matchDigits (e :: rest2) := matchDigits_collapse2 _
          have h2 : matchDigits (d :: collapse2 (e :: rest2))
              = matchDigits (d :: e :: rest2) := by
            rw [← hc3]
            exact matchDigits_collapse2 _
          rw [hc3]
          simp only [matchLetters]
          rw [h1, h2]

theorem postcodeMatch_collapse2 (l : List Char) :
    postcodeMatch (collapse2 l) = postcodeMatch l := by
  unfold postcodeMatch
  rw [dropWhile_collapse2]
  exact matchLetters_collapse2 _

theorem inwardHere_not_digit (p : Option Char) (c : Char) (t : List Char)
    (hc : c.isDigit = false) : inwardHere p (c :: t) = none := by
  rcases t with _ | ⟨a, _ | ⟨b, rest⟩⟩
  · rfl
  · rfl
  · simp [inwardHere, hc]

theorem bdryAfter_eq_head? (l : List Char) :
    bdryAfter l = (match l.head? with
      | none => true
      | some c => !isWord c) := by
  cases l <;> rfl

theorem bdryAfter_collapse2 (t : List Char) :
    bdryAfter (collapse2 t) = bdryAfter t := by
  rw [bdryAfter_eq_head?, bdryAfter_eq_head?, head?_collapse2]

theorem inwardHere_collapse2 (p : Option Char) (t : List Char) :
    inwardHere p (collapse2 t) = inwardHere p t := by
  rcases t with _ | ⟨c, _ | ⟨d, _ | ⟨e, rest⟩⟩⟩
  · rfl
  · rfl
  · by_cases hcd : c = ' ' ∧ d = ' '
    · obtain ⟨hc, hd⟩ := hcd
      subst hc; subst hd
      rfl
    · rw [show collapse2 [c, d] = [c, d] by simp [collapse2, hcd]]
  · by_cases hcd : c = ' ' ∧ d = ' '
    · obtain ⟨hc, hd⟩ := hcd
      subst hc; subst hd
      rw [show collapse2 (' ' :: ' ' :: e :: rest) = ' ' :: collapse2 (e :: rest) by
        simp [collapse2]]
      rw [inwardHere_not_digit p ' ' (collapse2 (e :: rest)) (by decide),
        inwardHere_not_digit p ' ' (' ' :: e :: rest) (by decide)]
    · have hc2 : collapse2 (c :: d :: e :: rest)
          = c :: collapse2 (d :: e :: rest) := by simp [collapse2, hcd]
      rw [hc2]
      by_cases hde : d = ' ' ∧ e = ' '
      · obtain ⟨hd, he⟩ := hde
        subst hd; subst he
        rw [show collapse2 (' ' :: ' ' :: rest) = ' ' :: collapse2 rest by
          simp [collapse2]]
        cases hcr : collapse2 rest with
        | nil => simp [inwardHere, show isAZ ' ' = false from by decide]
        | cons z zs => simp [inwardHere, show isAZ ' ' = false from by decide]
      · have hc3 : collapse2 (d :: e :: rest) = d :: collapse2 (e :: rest) := by
          simp [collapse2, hde]
        rw [hc3]
        rcases rest with _ | ⟨f, rest2⟩
        · rfl
        · by_cases hef : e = ' ' ∧ f = ' '
          · obtain ⟨he, hf⟩ := hef
            subst he; subst hf
            rw [show collapse2 (' ' :: ' ' :: rest2) = ' ' :: collapse2 rest2 by
              simp [collapse2]]
            simp [inwardHere, show isAZ ' ' = false from by decide]
          · rw [show collapse2 (e :: f :: rest2) = e :: collapse2 (f :: rest2) by
              simp [collapse2, hef]]
            simp only [inwardHere]
            rw [show bdryAfter (collapse2 (f :: rest2)) = bdryAfter (f :: rest2)
              from bdryAfter_collapse2 _]

theorem findInward_collapse2 (l : List Char) :
    ∀ p, findInward p (collapse2 l) = findInward p l := by
  have H : ∀ (n : ℕ) (l : List Char), l.length ≤ n →
      ∀ p, findInward p (collapse2 l) = findInward p l := by
    intro n
    induction n with
    | zero =>
      intro l hl p
      have hnil : l = [] := List.length_eq_zero.mp (Nat.le_zero.mp hl)
      subst hnil
      rfl
    | succ n ih =>
      intro l hl p
      rcases l with _ | ⟨c, _ | ⟨d, rest2⟩⟩
      · rfl
      · rfl
      · simp only [List.length_cons] at hl
        by_cases hcd : c = ' ' ∧ d = ' '
        · obtain ⟨hc, hd⟩ := hcd
          subst hc; subst hd
          rw [show collapse2 (' ' :: ' ' :: rest2) = ' ' :: collapse2 rest2 by
            simp [collapse2]]
          simp only [findInward]
          rw [inwardHere_not_digit p ' ' (collapse2 rest2) (by decide),
            inwardHere_not_digit p ' ' (' ' :: rest2) (by decide),
            inwardHere_not_digit (some ' ') ' ' rest2 (by decide)]
          dsimp only
          exact ih rest2 (by omega) (some ' ')
        · have hc2 : collapse2 (c :: d :: rest2) = c :: collapse2 (d :: rest2) := by
            simp [collapse2, hcd]
          rw [hc2]
          simp only [findInward]
          have hih : inwardHere p (c :: collapse2 (d :: rest2))
              = inwardHere p (c :: d :: rest2) := by
            rw [← hc2]
            exact inwardHere_collapse2 p _
          rw [hih]
          cases hres : inwardHere p (c :: d :: rest2) with
          | some x => rfl
          | none =>
            dsimp only
            exact ih (d :: rest2) (by simp only [List.length_cons]; omega) (some c)
  exact fun p => H l.length l le_rfl p

theorem upperL_fixed : ∀ l : List Char,
    (∀ a ∈ l, Char.toUpper a = a) → upperL l = l := by
  intro l
  induction l with
  | nil => intro _; rfl
  | cons a t ih =>
    intro h
    simp only [upperL, List.map_cons]
    rw [h a (List.mem_cons_self a t)]
    have ht := ih (fun b hb => h b (List.mem_cons_of_mem a hb))
    rw [upperL] at ht
    rw [ht]

theorem mem_pyNormalize_fixed (l : List Char) :
    ∀ a ∈ pyNormalize l, Char.toUpper a = a := by
  intro a ha
  have h1 : a ∈ upperL (stripL l) := mem_collapse2 a _ ha
  rw [upperL] at h1
  obtain ⟨b, _, hab⟩ := List.mem_map.mp h1
  rw [← hab]
  exact toUpper_idem b

theorem head?_pyNormalize (l : List Char) :
    ∀ c, (pyNormalize l).head? = some c → isWs c = false := by
  intro c hc
  rw [pyNormalize, head?_collapse2, upperL, List.head?_map] at hc
  cases hh : (stripL l).head? with
  | none => rw [hh] at hc; simp at hc
  | some b =>
    rw [hh] at hc
    have hbc : Char.toUpper b = c := by simpa using hc
    rw [← hbc, isWs_toUpper]
    exact stripL_head l b hh

theorem getLast?_map_toUpper (l : List Char) :
    (l.map Char.toUpper).getLast? = l.getLast?.map Char.toUpper := by
  rw [← List.head?_reverse, ← List.map_reverse, List.head?_map, List.head?_reverse]

theorem getLast?_pyNormalize (l : List Char) :
    ∀ c, (pyNormalize l).getLast? = some c → isWs c = false := by
  intro c hc
  rw [pyNormalize, getLast?_collapse2, upperL, getLast?_map_toUpper] at hc
  cases hh : (stripL l).getLast? with
  | none => rw [hh] at hc; simp at hc
  | some b =>
    rw [hh] at hc
    have hbc : Char.toUpper b = c := by simpa using hc
    rw [← hbc, isWs_toUpper]
    exact stripL_getLast l b hh

theorem pyNormalize_pyNormalize (l : List Char) :
    pyNormalize (pyNormalize l) = collapse2 (pyNormalize l) := by
  conv_lhs => rw [pyNormalize]
  rw [stripL_eq_self _ (head?_pyNormalize l) (getLast?_pyNormalize l),
    upperL_fixed _ (mem_pyNormalize_fixed l)]

theorem parse_district_pyNormalize (l : List Char) :
    parse_district (pyNormalize l) = parse_district l := by
  rw [parse_district, parse_district, pyNormalize_pyNormalize,
    postcodeMatch_collapse2]

theorem derive_sector_pyNormalize (l d : List Char) :
    derive_sector_from_postcode (pyNormalize l) d
      = derive_sector_from_postcode l d := by
  rw [derive_sector_from_postcode, derive_sector_from_postcode,
    pyNormalize_pyNormalize, findInward_collapse2]

theorem trendFromG2_eq (g2 : List Row) :
    trendFromG2 g2 =
      (List.insertionSort (· ≤ ·) (g2.filterMap (fun r => r.year)).dedup).filterMap
        (fun yr =>
          (safe_median ((g2.filter (fun r => r.year = some yr)).map
              (fun r => r.annual))).map
            (fun med => ⟨yr, med,
              safe_count ((g2.filter (fun r => r.year = some yr)).map
                (fun r => r.annual))⟩)) := by
  unfold trendFromG2
  by_cases h : g2.isEmpty
  · rw [if_pos h]
    rw [List.isEmpty_iff.mp h]
    rfl
  · rw [if_neg h]

/-! ## Claim theorems -/

/-- C1 counterexample: the claimed "High iff s > r × 1.10" fails at the
concrete input `s = r = -1000`: there `s > r × 1.10` holds yet `verdict`
returns `"Low"` (the `s ≤ r × 0.90` branch fires first). -/
theorem verdict_high_iff_counterexample :
    ¬ (verdict (some (-1000 : ℚ)) (some (-1000 : ℚ)) = "High" ↔
        (-1000 : ℚ) * (11 / 10) < -1000) := by
  intro h
  have hv : verdict (some (-1000 : ℚ)) (some (-1000 : ℚ)) = "Low" := by
    norm_num [verdict, LOW_BAND]
  have hh := h.mpr (by norm_num)
  rw [hv] at hh
  exact absurd hh (by decide)

/-- C1 (amended): for defined inputs, `verdict` returns `"Low"` iff
`s ≤ r * 0.90`, `"Fair"` iff `r * 0.90 < s ≤ r * 1.10`, and `"High"` iff
`s` exceeds both bands (equivalently, iff `s > r * 1.10` whenever the
reference median is nonnegative); ties at each boundary favour the
cheaper class; `verdict(900, 1000) = "Low"`, `verdict(901, 1000) =
"Fair"`, `verdict(1101, 1000) = "High"`; undefined input gives `"N/A"`. -/
theorem verdict_spec_amended :
    (∀ s r : ℚ,
      (verdict (some s) (some r) = "Low" ↔ s ≤ r * (9 / 10)) ∧
      (verdict (some s) (some r) = "Fair" ↔ r * (9 / 10) < s ∧ s ≤ r * (11 / 10)) ∧
      (verdict (some s) (some r) = "High" ↔ r * (9 / 10) < s ∧ r * (11 / 10) < s) ∧
      (0 ≤ r → (verdict (some s) (some r) = "High" ↔ r * (11 / 10) < s))) ∧
    (∀ m : Option ℚ, verdict none m = "N/A" ∧ verdict m none = "N/A") ∧
    verdict (some 900) (some 1000) = "Low" ∧
    verdict (some 901) (some 1000) = "Fair" ∧
    verdict (some 1101) (some 1000) = "High" := by
  refine ⟨fun s r => ?_, fun m => ⟨by cases m <;> rfl, by cases m <;> rfl⟩,
    by norm_num [verdict, LOW_BAND], by norm_num [verdict, LOW_BAND, HIGH_BAND],
    by norm_num [verdict, LOW_BAND, HIGH_BAND]⟩
  have hLow : verdict (some s) (some r) = "Low" ↔ s ≤ r * (9 / 10) := by
    by_cases h1 : s ≤ r * (9 / 10)
    · simp [verdict, LOW_BAND, h1]
    · by_cases h2 : s ≤ r * (11 / 10) <;>
        simp [verdict, LOW_BAND, HIGH_BAND, h1, h2]
  have hFair : verdict (some s) (some r) = "Fair" ↔
      r * (9 / 10) < s ∧ s ≤ r * (11 / 10) := by
    by_cases h1 : s ≤ r * (9 / 10)
    · simp only [verdict, LOW_BAND, if_pos h1]
      constructor
      · intro h
        exact absurd h (by decide)
      · intro h
        exact absurd h1 (not_le.mpr h.1)
    · by_cases h2 : s ≤ r * (11 / 10)
      · simp [verdict, LOW_BAND, HIGH_BAND, h1, h2, not_le.mp h1]
      · simp only [verdict, LOW_BAND, HIGH_BAND, if_neg h1, if_neg h2]
        constructor
        · intro h
          exact absurd h (by decide)
        · intro h
          exact absurd h.2 h2
  have hHigh : verdict (some s) (some r) = "High" ↔
      r * (9 / 10) < s ∧ r * (11 / 10) < s := by
    by_cases h1 : s ≤ r * (9 / 10)
    · simp only [verdict, LOW_BAND, if_pos h1]
      constructor
      · intro h
        exact absurd h (by decide)
      · intro h
        exact absurd h1 (not_le.mpr h.1)
    · by_cases h2 : s ≤ r * (11 / 10)
      · simp only [verdict, LOW_BAND, HIGH_BAND, if_neg h1, if_pos h2]
        constructor
        · intro h
          exact absurd h (by decide)
        · intro h
          exact absurd h2 (not_le.mpr h.2)
      · simp only [verdict, LOW_BAND, HIGH_BAND, if_neg h1, if_neg h2]
        constructor
        · intro h
          exact ⟨not_le.mp h1, not_le.mp h2⟩
        · intro h
          trivial
  refine ⟨hLow, hFair, hHigh, fun hr => ?_⟩
  rw [hHigh]
  constructor
  · intro h
    exact h.2
  · intro h
    have h9 : r * (9 / 10) ≤ r * (11 / 10) := by nlinarith
    exact ⟨lt_of_le_of_lt h9 h, h⟩

/-- C1 witness: the amended clauses applied at `s = 900`, `r = 1000`,
discharging the nonnegativity hypothesis. -/
theorem verdict_spec_amended_witness :
    verdict (some 900) (some 1000) = "High" ↔ (1000 : ℚ) * (11 / 10) < 900 :=
  (verdict_spec_amended.1 900 1000).2.2.2 (by norm_num)

/-- C5: `forecast_rows` on a defined base is the sequence
`(k, base * 1.03 ^ k)` for `k = 1..5`; on base 1000 year 1 is exactly 1030
and year 5 is 1159.27 up to rounding; an undefined base gives `[]`. -/
theorem forecast_rows_spec :
    forecast_rows none = [] ∧
    (∀ b : ℚ, (forecast_rows (some b)).length = FORECAST_YEARS ∧
      ∀ k : ℕ, k < FORECAST_YEARS →
        (forecast_rows (some b))[k]? = some (k + 1, b * (1 + INFLATION_RATE) ^ (k + 1))) ∧
    (forecast_rows (some 1000))[0]? = some (1, 1030) ∧
    (∃ v : ℚ, (forecast_rows (some 1000))[4]? = some (5, v) ∧
      115927 / 100 ≤ v ∧ v < 115928 / 100) := by
  have hrange : List.range FORECAST_YEARS = [0, 1, 2, 3, 4] := rfl
  have hl : forecast_rows (some 1000) =
      [(1, 1030), (2, 10609 / 10), (3, 1092727 / 1000), (4, 112550881 / 100000),
       (5, 11592740743 / 10000000)] := by
    norm_num [forecast_rows, INFLATION_RATE, hrange]
  refine ⟨rfl, fun b => ⟨by simp [forecast_rows], fun k hk => ?_⟩, by rw [hl]; rfl,
    ⟨11592740743 / 10000000, by rw [hl]; rfl, by norm_num, by norm_num⟩⟩
  simp [forecast_rows, List.getElem?_range hk]

/-- C5 witness: the indexed clause applied at `b = 1000`, `k = 0`. -/
theorem forecast_rows_spec_witness :
    (forecast_rows (some 1000))[0]? = some (0 + 1, 1000 * (1 + INFLATION_RATE) ^ (0 + 1)) :=
  (forecast_rows_spec.2.1 1000).2 0 (by decide)

/-- C4: `add_yoy` keeps every point's year/median/count, sets
`yoy = (current - previous) / previous * 100` against the immediately
preceding point, leaves it undefined for the first point and whenever the
previous median is exactly zero; on medians `[1000, 1100, 990]` the yoy
column is `[none, +10, -10]`. -/
theorem add_yoy_spec :
    (∀ l : List TrendPoint,
      (add_yoy l).length = l.length ∧
      (∀ i : ℕ, ((add_yoy l)[i]?).map (fun p => (p.year, p.median_year, p.n))
          = (l[i]?).map (fun p => (p.year, p.median_year, p.n))) ∧
      (∀ q, (add_yoy l)[0]? = some q → q.yoy = none) ∧
      (∀ (i : ℕ) (p : TrendPoint) (q : TrendPointY),
        l[i]? = some p → (add_yoy l)[i + 1]? = some q →
        q.yoy = if p.median_year = 0 then none
          else some ((q.median_year - p.median_year) / p.median_year * 100))) ∧
    (add_yoy [⟨2021, 1000, 1⟩, ⟨2022, 1100, 1⟩, ⟨2023, 990, 1⟩]).map (fun p => p.yoy)
      = [none, some 10, some (-10)] := by
  refine ⟨fun l => ⟨add_yoy_go_length none l, fun i => add_yoy_go_base none l i,
    ?_, fun i p q hp hq => add_yoy_go_succ l none i p q hp hq⟩,
    by norm_num [add_yoy, add_yoy_go]⟩
  intro q hq
  cases l with
  | nil => simp [add_yoy, add_yoy_go] at hq
  | cons row rest =>
    simp only [add_yoy, add_yoy_go, List.getElem?_cons_zero, Option.some_inj] at hq
    subst hq
    rfl

/-- C4 witness: the yoy-recurrence clause applied on the concrete
three-point trend at `i = 0`. -/
theorem add_yoy_spec_witness :
    (⟨2022, 1100, 1, some 10⟩ : TrendPointY).yoy
      = if (⟨2021, 1000, 1⟩ : TrendPoint).median_year = 0 then none
        else some ((TrendPointY.median_year ⟨2022, 1100, 1, some 10⟩
          - TrendPoint.median_year ⟨2021, 1000, 1⟩)
            / TrendPoint.median_year ⟨2021, 1000, 1⟩ * 100) :=
  (add_yoy_spec.1 [⟨2021, 1000, 1⟩, ⟨2022, 1100, 1⟩, ⟨2023, 990, 1⟩]).2.2.2
    0 ⟨2021, 1000, 1⟩ ⟨2022, 1100, 1, some 10⟩ rfl
    (by norm_num [add_yoy, add_yoy_go])

/-- C6 counterexample: the claimed "count 0 whenever a field has zero
coercible values" fails for the non-annual fields: a one-row subset whose
verified row has annual 100 but no monthly value has zero coercible
monthly values, an undefined monthly median — yet count 1, because the
count is taken on the annual-amount field only. -/
theorem compute_stats_count_counterexample :
    (∀ r ∈ apply_verified_filter
      [⟨⟨"", "", some "ok", some 100, none, none, none, none, none⟩, none⟩],
      r.monthly = none) ∧
    (compute_stats
      [⟨⟨"", "", some "ok", some 100, none, none, none, none, none⟩, none⟩]).median_month
        = none ∧
    (compute_stats
      [⟨⟨"", "", some "ok", some 100, none, none, none, none, none⟩, none⟩]).n ≠ 0 := by
  refine ⟨?_, by decide, by decide⟩
  intro r hr
  have := (List.mem_filter.mp hr).1
  simp only [List.mem_singleton] at this
  rw [this]

/-- C6 (amended): `compute_stats` is total; the empty subset gives count 0
with all four medians undefined; and on any subset, a field with zero
numeric-coercible values among the verified rows has an undefined
(absent) median — never zero, never a crash — while the count (taken on
the annual-amount field, per section 4.3) is 0 exactly when the annual
field has zero coercible values. -/
theorem compute_stats_spec :
    compute_stats [] = ⟨0, none, none, none, none⟩ ∧
    (∀ g : List Row,
      ((compute_stats g).n = 0 ↔ ∀ r ∈ apply_verified_filter g, r.annual = none) ∧
      ((∀ r ∈ apply_verified_filter g, r.annual = none) →
        (compute_stats g).median_year = none) ∧
      ((∀ r ∈ apply_verified_filter g, r.monthly = none) →
        (compute_stats g).median_month = none) ∧
      ((∀ r ∈ apply_verified_filter g, r.psf = none) →
        (compute_stats g).median_psf = none) ∧
      ((∀ r ∈ apply_verified_filter g, r.psm = none) →
        (compute_stats g).median_psm = none)) := by
  refine ⟨by decide, fun g => ⟨?_, fun h => ?_, fun h => ?_, fun h => ?_, fun h => ?_⟩⟩
  · exact safe_count_map_eq_zero_iff _ _
  · exact safe_median_map_none _ _ h
  · exact safe_median_map_none _ _ h
  · exact safe_median_map_none _ _ h
  · exact safe_median_map_none _ _ h

/-- C6 witness: a one-row subset whose verified row has no coercible values
in any field yields count 0 (via the iff's reverse direction) and an
undefined annual median. -/
theorem compute_stats_spec_witness :
    (compute_stats [⟨⟨"", "", some "ok", none, none, none, none, none, none⟩, none⟩]).n = 0 ∧
    (compute_stats [⟨⟨"", "", some "ok", none, none, none, none, none, none⟩, none⟩]).median_year
      = none :=
  ⟨((compute_stats_spec.2
      [⟨⟨"", "", some "ok", none, none, none, none, none, none⟩, none⟩]).1).mpr (by decide),
   (compute_stats_spec.2
      [⟨⟨"", "", some "ok", none, none, none, none, none, none⟩, none⟩]).2.1 (by decide)⟩

/-- C10: a record with a missing reliability tag is string-coerced to
`"nan"`, normalised to `"NAN"`, which is not in the exclusion set
`{"LOW"}`, so the record satisfies the verified predicate; and the
verified filter keeps exactly the rows satisfying that predicate, so such
records contribute to statistics exactly like explicitly verified rows. -/
theorem missing_reliability_verified :
    (∀ r : Row, r.reliability = none →
      relClean r = "NAN".toList ∧ verified r = true) ∧
    "NAN".toList ∉ EXCLUDE_RELIABILITY ∧
    (∀ (g : List Row) (r : Row),
      r ∈ apply_verified_filter g ↔ r ∈ g ∧ verified r = true) := by
  refine ⟨fun r h => ⟨?_, ?_⟩, by decide, fun g r => List.mem_filter⟩
  · simp only [relClean, h]
    decide
  · simp only [verified, relClean, h]
    decide

/-- C10 witness: a concrete row with a missing tag passes the filter. -/
theorem missing_reliability_verified_witness :
    relClean ⟨⟨"", "", none, some 5, none, none, none, none, none⟩, none⟩ = "NAN".toList ∧
    verified ⟨⟨"", "", none, some 5, none, none, none, none, none⟩, none⟩ = true :=
  missing_reliability_verified.1 _ rfl

/-- C8: the `_year` column is a single dataset-wide choice: the end-date
fallback is used iff the vintage column is non-numeric on every row;
otherwise every row gets its own vintage value (`none` when non-numeric,
with no per-record fallback), and rows with no resolved year are excluded
from trend grouping. -/
theorem year_resolution_spec :
    (∀ rs : List RawRow, (∀ r ∈ rs, r.vintage = none) →
      load rs = rs.map (fun r => ⟨r, r.periodEndYear⟩)) ∧
    (∀ rs : List RawRow, (∃ r ∈ rs, r.vintage ≠ none) →
      load rs = rs.map (fun r => ⟨r, r.vintage⟩)) ∧
    (∀ g : List Row, compute_trend_by_year g
      = compute_trend_by_year (g.filter (fun r => r.year ≠ none))) := by
  refine ⟨fun rs h => ?_, fun rs h => ?_, fun g => ?_⟩
  · have hc : rs.all (fun r => r.vintage.isNone) = true := by
      rw [List.all_eq_true]
      intro r hr
      simp [h r hr]
    simp [load, hc]
  · obtain ⟨r, hr, hv⟩ := h
    have hc : ¬ rs.all (fun r => r.vintage.isNone) = true := by
      rw [List.all_eq_true]
      intro hall
      exact hv (Option.isNone_iff_eq_none.mp (hall r hr))
    rw [load, if_neg hc]
  · unfold compute_trend_by_year apply_verified_filter
    congr 1
    simp only [List.filter_filter]
    apply List.filter_congr
    intro r _
    cases hy : r.year <;> simp

/-- C8 witness: concrete instantiations of the global choice.  With one
numeric vintage present, the all-`none` fallback is not taken and the
non-numeric row keeps `year = none`. -/
theorem year_resolution_spec_witness :
    load [⟨"", "", none, none, none, none, none, some 2020, none⟩,
          ⟨"", "", none, none, none, none, none, some 2019, some 2021⟩]
      = [⟨⟨"", "", none, none, none, none, none, some 2020, none⟩, none⟩,
         ⟨⟨"", "", none, none, none, none, none, some 2019, some 2021⟩, some 2021⟩] := by
  have h := year_resolution_spec.2.1
    [⟨"", "", none, none, none, none, none, some 2020, none⟩,
     ⟨"", "", none, none, none, none, none, some 2019, some 2021⟩]
    ⟨⟨"", "", none, none, none, none, none, some 2019, some 2021⟩, by simp, by simp⟩
  rw [h]
  rfl

/-- C2: the orchestrator's year-alignment step yields the ascending
sorted union of the two series' years as a shared axis, together with two
parallel value sequences indexed by it in which a year absent from a
series carries `none` for that series and a present year carries that
series' median; on sector years {2021, 2023} and reference years
{2021, 2022} the axis is [2021, 2022, 2023], the sector values
[v, none, v], the reference values [v, v, none]. -/
theorem align_trends_spec :
    (∀ sec ref : List TrendPoint,
      ((alignTrends sec ref).1.Sorted (· < ·)) ∧
      (∀ y : Int, y ∈ (alignTrends sec ref).1 ↔
        y ∈ sec.map (fun p => p.year) ∨ y ∈ ref.map (fun p => p.year)) ∧
      (alignTrends sec ref).2.1.length = (alignTrends sec ref).1.length ∧
      (alignTrends sec ref).2.2.length = (alignTrends sec ref).1.length ∧
      (∀ (i : ℕ) (y : Int), (alignTrends sec ref).1[i]? = some y →
        ((alignTrends sec ref).2.1[i]? = some none ↔
          y ∉ sec.map (fun p => p.year)) ∧
        ((alignTrends sec ref).2.2[i]? = some none ↔
          y ∉ ref.map (fun p => p.year)) ∧
        (∀ v : ℚ, (alignTrends sec ref).2.1[i]? = some (some v) →
          ∃ p ∈ sec, p.year = y ∧ p.median_year = v) ∧
        (∀ v : ℚ, (alignTrends sec ref).2.2[i]? = some (some v) →
          ∃ p ∈ ref, p.year = y ∧ p.median_year = v))) ∧
    alignTrends [⟨2021, 100, 1⟩, ⟨2023, 300, 2⟩] [⟨2021, 100, 3⟩, ⟨2022, 200, 4⟩]
      = ([2021, 2022, 2023], [some 100, none, some 300],
         [some 100, some 200, none]) := by
  refine ⟨fun sec ref => ?_, by rfl⟩
  have hmem : ∀ y : Int, y ∈ (alignTrends sec ref).1 ↔
      y ∈ sec.map (fun p => p.year) ∨ y ∈ ref.map (fun p => p.year) := by
    intro y
    simp only [alignTrends]
    rw [(List.perm_insertionSort _ _).mem_iff, List.mem_dedup, List.mem_append,
      trendDict_keys, trendDict_keys]
    exact Or.comm
  refine ⟨?_, hmem, by simp [alignTrends], by simp [alignTrends],
    fun i y hy => ?_⟩
  · have hsorted : (alignTrends sec ref).1.Sorted (· ≤ ·) :=
      List.sorted_insertionSort _ _
    have hnodup : (alignTrends sec ref).1.Nodup :=
      ((List.perm_insertionSort _ _).nodup_iff).mpr (List.nodup_dedup _)
    exact hsorted.lt_of_le hnodup
  · have hs : (alignTrends sec ref).2.1[i]?
        = some (dictGet (trendDict sec) y) := by
      show ((alignTrends sec ref).1.map (fun z => dictGet (trendDict sec) z))[i]?
        = some (dictGet (trendDict sec) y)
      rw [List.getElem?_map, hy]
      rfl
    have hl : (alignTrends sec ref).2.2[i]?
        = some (dictGet (trendDict ref) y) := by
      show ((alignTrends sec ref).1.map (fun z => dictGet (trendDict ref) z))[i]?
        = some (dictGet (trendDict ref) y)
      rw [List.getElem?_map, hy]
      rfl
    refine ⟨?_, ?_, ?_, ?_⟩
    · rw [hs, Option.some_inj, dictGet_eq_none_iff, trendDict_keys]
    · rw [hl, Option.some_inj, dictGet_eq_none_iff, trendDict_keys]
    · intro v hv
      rw [hs, Option.some_inj] at hv
      have := dictGet_some_mem _ _ _ hv
      simp only [trendDict, List.mem_map] at this
      obtain ⟨p, hp, hpe⟩ := this
      exact ⟨p, hp, congrArg Prod.fst hpe, congrArg Prod.snd hpe⟩
    · intro v hv
      rw [hl, Option.some_inj] at hv
      have := dictGet_some_mem _ _ _ hv
      simp only [trendDict, List.mem_map] at this
      obtain ⟨p, hp, hpe⟩ := this
      exact ⟨p, hp, congrArg Prod.fst hpe, congrArg Prod.snd hpe⟩

/-- C2 witness: the per-index clauses applied on the concrete example at
index 1 (year 2022, absent from the sector series). -/
theorem align_trends_spec_witness :
    (alignTrends [⟨2021, 100, 1⟩, ⟨2023, 300, 2⟩]
        [⟨2021, 100, 3⟩, ⟨2022, 200, 4⟩]).2.1[1]? = some none ↔
      (2022 : Int) ∉ ([⟨2021, 100, 1⟩, ⟨2023, 300, 2⟩] : List TrendPoint).map
        (fun p => p.year) :=
  ((align_trends_spec.1 [⟨2021, 100, 1⟩, ⟨2023, 300, 2⟩]
    [⟨2021, 100, 3⟩, ⟨2022, 200, 4⟩]).2.2.2.2 1 2022 (by rfl)).1

/-- C3: `compute_trend_by_year` emits exactly one point per distinct
resolvable year of the verified rows whose per-year annual median is
defined (years with zero coercible annual values are omitted), each point
carrying that year's median and count, and the emitted year sequence is
strictly ascending. -/
theorem compute_trend_spec :
    ∀ g : List Row,
      ((compute_trend_by_year g).map (fun p => p.year)).Nodup ∧
      ((compute_trend_by_year g).map (fun p => p.year)).Sorted (· < ·) ∧
      (∀ y : Int, y ∈ (compute_trend_by_year g).map (fun p => p.year) ↔
        ((∃ r ∈ apply_verified_filter g, r.year = some y) ∧
          (safe_median (((apply_verified_filter g).filter
            (fun r => r.year = some y)).map (fun r => r.annual))).isSome)) ∧
      (∀ pt ∈ compute_trend_by_year g,
        safe_median (((apply_verified_filter g).filter
            (fun r => r.year = some pt.year)).map (fun r => r.annual))
          = some pt.median_year ∧
        pt.n = safe_count (((apply_verified_filter g).filter
            (fun r => r.year = some pt.year)).map (fun r => r.annual))) := by
  intro g
  have hmapyear : (compute_trend_by_year g).map (fun p => p.year)
      = (List.insertionSort (· ≤ ·)
          ((((apply_verified_filter g).filter (fun r => r.year.isSome)).filterMap
            (fun r => r.year)).dedup)).filter
        (fun yr => (safe_median (((apply_verified_filter g).filter
          (fun r => r.year = some yr)).map (fun r => r.annual))).isSome) := by
    rw [compute_trend_by_year, trendFromG2_eq, trend_map_year]
    apply List.filter_congr
    intro yr _
    rw [filter_isSome_filter_year]
  have hsorted_le : (List.insertionSort (· ≤ ·)
      ((((apply_verified_filter g).filter (fun r => r.year.isSome)).filterMap
        (fun r => r.year)).dedup)).Sorted (· ≤ ·) :=
    List.sorted_insertionSort _ _
  have hnodup : (List.insertionSort (· ≤ ·)
      ((((apply_verified_filter g).filter (fun r => r.year.isSome)).filterMap
        (fun r => r.year)).dedup)).Nodup :=
    ((List.perm_insertionSort _ _).nodup_iff).mpr (List.nodup_dedup _)
  refine ⟨?_, ?_, ?_, ?_⟩
  · rw [hmapyear]
    exact hnodup.sublist (List.filter_sublist _)
  · rw [hmapyear]
    exact (hsorted_le.lt_of_le hnodup).sublist (List.filter_sublist _)
  · intro y
    rw [hmapyear, List.mem_filter]
    constructor
    · rintro ⟨hy, hsome⟩
      rw [(List.perm_insertionSort _ _).mem_iff, List.mem_dedup,
        List.mem_filterMap] at hy
      refine ⟨(mem_year_filter_isSome _ _).mp hy, by simpa using hsome⟩
    · rintro ⟨hy, hsome⟩
      refine ⟨?_, by simpa using hsome⟩
      rw [(List.perm_insertionSort _ _).mem_iff, List.mem_dedup,
        List.mem_filterMap]
      exact (mem_year_filter_isSome _ _).mpr hy
  · intro pt hpt
    rw [compute_trend_by_year, trendFromG2_eq, List.mem_filterMap] at hpt
    obtain ⟨yr, _, hf⟩ := hpt
    cases hm : safe_median ((((apply_verified_filter g).filter
        (fun r => r.year.isSome)).filter (fun r => r.year = some yr)).map
          (fun r => r.annual)) with
    | none => rw [hm] at hf; simp at hf
    | some med =>
      rw [hm] at hf
      have hf2 := Option.some_inj.mp hf
      subst hf2
      dsimp only
      refine ⟨?_, ?_⟩
      · rw [filter_isSome_filter_year g yr] at hm
        exact hm
      · rw [← filter_isSome_filter_year g yr]

/-- C7: the query route distinguishes its failure modes: empty (stripped)
input gives EmptyInput; a non-empty input failing the postal-code shape
match gives InvalidFormat; an input whose shape matches but whose
inward-digit extraction (digit followed by two letters at a word
boundary) fails gives the distinct SectorDerivationFailed; and the input
"E19AB" satisfies the full shape (district "E1") yet fails sector
derivation, so the two failure modes are genuinely distinct. -/
theorem search_error_taxonomy :
    (∀ s : List Char, stripL s = [] → searchOutcome s = SearchOutcome.emptyInput) ∧
    (∀ s : List Char, stripL s ≠ [] → parse_district s = none →
      searchOutcome s = SearchOutcome.invalidFormat) ∧
    (∀ (s d : List Char), stripL s ≠ [] → parse_district s = some d →
      derive_sector_from_postcode s d = none →
      searchOutcome s = SearchOutcome.sectorDerivationFailed) ∧
    (parse_district "E19AB".toList = some ['E', '1'] ∧
      searchOutcome "E19AB".toList = SearchOutcome.sectorDerivationFailed) := by
  refine ⟨fun s h => ?_, fun s h1 h2 => ?_, fun s d h1 h2 h3 => ?_, by rfl, by rfl⟩
  · simp [searchOutcome, h]
  · have hpc : parse_district (stripL s) = none := by
      rw [parse_district_stripL]
      exact h2
    simp only [searchOutcome]
    rw [if_neg (by simpa [List.isEmpty_iff] using h1), hpc]
  · have hpc : parse_district (stripL s) = some d := by
      rw [parse_district_stripL]
      exact h2
    have hds : derive_sector_from_postcode (stripL s) d = none := by
      rw [derive_sector_stripL]
      exact h3
    simp only [searchOutcome]
    rw [if_neg (by simpa [List.isEmpty_iff] using h1), hpc]
    dsimp only
    rw [hds]

/-- C7 witness: the InvalidFormat clause applied at the concrete input
"ZZZZ" (non-empty, fails the shape match). -/
theorem search_error_taxonomy_witness :
    searchOutcome "ZZZZ".toList = SearchOutcome.invalidFormat :=
  search_error_taxonomy.2.1 "ZZZZ".toList (by decide) (by rfl)

/-- C9: sector derivation is deterministic (it is a function) and
idempotent under repeated input normalization: for every postal code
matching the accepted shape, applying the normalization (trim, uppercase,
collapse double spaces) twice before `parse_district` /
`derive_sector_from_postcode` yields the same district and sector as
applying it once, and the same as passing the raw string (the operations
normalise internally). -/
theorem derive_sector_idempotent_spec :
    ∀ l : List Char, (parse_district l).isSome →
      (parse_district (pyNormalize (pyNormalize l)) = parse_district (pyNormalize l) ∧
        parse_district (pyNormalize l) = parse_district l) ∧
      ∀ d : List Char,
        derive_sector_from_postcode (pyNormalize (pyNormalize l)) d
            = derive_sector_from_postcode (pyNormalize l) d ∧
        derive_sector_from_postcode (pyNormalize l) d
            = derive_sector_from_postcode l d := by
  intro l _
  exact ⟨⟨parse_district_pyNormalize (pyNormalize l), parse_district_pyNormalize l⟩,
    fun d => ⟨derive_sector_pyNormalize (pyNormalize l) d,
      derive_sector_pyNormalize l d⟩⟩

/-- C9 witness: the concrete postal code "E14 9AZ" (which matches the
shape) gives the same parse after one extra normalization pass. -/
theorem derive_sector_idempotent_spec_witness :
    parse_district (pyNormalize "E14 9AZ".toList) = parse_district "E14 9AZ".toList :=
  (derive_sector_idempotent_spec "E14 9AZ".toList (by decide)).1.2

/-- C3 witness: a concrete one-row subset — the verified row with annual
value 100 and resolved year 2021 yields the single trend year 2021. -/
theorem compute_trend_spec_witness :
    (2021 : Int) ∈ (compute_trend_by_year
      [⟨⟨"", "", none, some 100, none, none, none, none, some 2021⟩,
        some 2021⟩]).map (fun p => p.year) :=
  ((compute_trend_spec [⟨⟨"", "", none, some 100, none, none, none, none,
      some 2021⟩, some 2021⟩]).2.2.1 2021).mpr
    ⟨⟨⟨⟨"", "", none, some 100, none, none, none, none, some 2021⟩,
        some 2021⟩, by decide, rfl⟩, by rfl⟩

end SCCheck
